import Mathlib

/-!
Verification development for the Duoread immersive-translation extension.

The development shallowly embeds the JavaScript sources:
* `content.js` — text extraction (`getTranslatableText`), HTML escaping
  (`escapeHtml`), placeholder restoration (`restorePlaceholders`), the page
  translation pass (`translatePage`) and removal (`removeAllTranslations`);
* `background.js` — the translation client (`translateTexts`,
  `fetchTranslationsFromApi`, `translateBatch`) with its content-hash cache.

All string computation is done on `List Char` so that every definition is
executable by kernel reduction; `String` values are wrapped with `String.mk`.
-/

/-! ## JavaScript primitives used by the sources -/

/-- The character class matched by the JavaScript regular-expression escape
`\s`: space, the control whitespace characters, NBSP, and the Unicode
space separators recognised by ECMA-262 (plus BOM). -/
def isJsWs (c : Char) : Bool :=
  c = ' ' || c = '\t' || c = '\n' || c = '\x0b' || c = '\x0c' || c = '\r' ||
  c = '\xa0' || c = '\u1680' || ('\u2000' ≤ c && c ≤ '\u200a') ||
  c = '\u2028' || c = '\u2029' || c = '\u202f' || c = '\u205f' ||
  c = '\u3000' || c = '\uFEFF'

/-- JavaScript `String.prototype.replace` with a global single-character
regular expression, e.g. `text.replace(/&/g, "&amp;")`: every occurrence of
the character `c` is replaced by `repl`. -/
def replaceChar (c : Char) (repl : List Char) : List Char → List Char
  | [] => []
  | d :: s => if d = c then repl ++ replaceChar c repl s else d :: replaceChar c repl s

/-! ## `escapeHtml` (content.js lines 135-142) -/

/-- Embedding of `escapeHtml` from content.js: the chain
`.replace(/&/g,"&amp;").replace(/</g,"&lt;").replace(/>/g,"&gt;")
.replace(/"/g,"&quot;").replace(/'/g,"&#039;")`, on character lists. -/
def escapeHtmlL (text : List Char) : List Char :=
  replaceChar '\x27' "&#039;".data
    (replaceChar '"' "&quot;".data
      (replaceChar '>' "&gt;".data
        (replaceChar '<' "&lt;".data
          (replaceChar '&' "&amp;".data text))))

/-- String wrapper for `escapeHtmlL`. -/
def escapeHtml (text : String) : String :=
  String.mk (escapeHtmlL text.data)

/-- The five characters that `escapeHtml` rewrites. -/
def isEscapedChar (c : Char) : Bool :=
  c = '&' || c = '<' || c = '>' || c = '"' || c = '\x27'

/-! ## The fuzzy placeholder pattern (content.js lines 117-127)

`restorePlaceholders` builds, for a placeholder id such as `__MATH_0__`,
the regular expression `new RegExp(escapedId.split('').join('\\s*'), 'gi')`
where `escapedId = id.replace(/_/g, '[_＿]')`.  Splitting the *source text*
of the class `[_＿]` into single characters and rejoining with `\s*` turns
each underscore of the id into the class `[\s*_\s*＿\s*]` — which matches a
whitespace character, `*`, `_`, or `＿` — and leaves every other id
character as a case-insensitive literal, with `\s*` between any two
consecutive atoms. -/

/-- One single-character atom of the generated pattern. -/
inductive PatAtom where
  | lit (c : Char)
  | uclass
deriving DecidableEq

/-- The atom generated for one character of the placeholder id. -/
def atomOf (c : Char) : PatAtom :=
  if c = '_' then PatAtom.uclass else PatAtom.lit c

/-- Atom list of the whole placeholder id. -/
def tokenAtoms (id : List Char) : List PatAtom :=
  id.map atomOf

/-- Whether an atom matches one input character.  The `i` flag of the
generated regular expression is modelled as lower-case folding. -/
def atomMatch : PatAtom → Char → Bool
  | PatAtom.lit c, d => d.toLower == c.toLower
  | PatAtom.uclass, d => isJsWs d || d = '*' || d = '_' || d = '＿'

/-- Backtracking matcher for the pattern `a₁ \s* a₂ \s* … \s* aₙ` at the
head of the input; returns the number of characters consumed by the match.
When `gap` is true a `\s*` separator is pending before the next atom; the
greedy engine prefers to extend the whitespace run and backtracks into
matching the atom on failure, which is exactly the JavaScript engine's
leftmost-greedy behaviour for this pattern shape. -/
def matchRun (gap : Bool) (as : List PatAtom) : List Char → Option Nat
  | [] =>
    match as with
    | [] => some 0
    | _ :: _ => none
  | c :: s =>
    match as with
    | [] => some 0
    | a :: as' =>
      let here : Option Nat :=
        if atomMatch a c then
          match as' with
          | [] => some 1
          | _ :: _ =>
            match matchRun true as' s with
            | some n => some (n + 1)
            | none => none
        else none
      if gap && isJsWs c then
        match matchRun true as s with
        | some n => some (n + 1)
        | none => here
      else here

/-- Match of the whole atom sequence at the head of the input (the pattern
has no leading `\s*`). -/
def matchSeq (as : List PatAtom) (s : List Char) : Option Nat :=
  matchRun false as s

/-- The characters a `$` escapes in a `String.prototype.replace`
replacement string: `$` (for `$$`), `&` (the match), a backtick (the
text before the match) and a quote (the text after the match). -/
def isDollarSpecial (c : Char) : Bool :=
  c = '$' || c = '&' || c = '\x60' || c = '\x27'

/-- ECMA-262 GetSubstitution for a string replacement argument of
`String.prototype.replace` with a capture-group-free pattern: `$$` yields
`$`, `$&` the matched substring, `` $` `` the part of the subject before
the match, `$'` the part after the match; every other `$` (including `$n`
— the pattern has no capture groups — and `$<`, since it has no named
groups) is literal.  `matched`, `before` and `after` are those three
substrings of the subject. -/
def getSubstitution (matched before after : List Char) : List Char → List Char
  | [] => []
  | c :: rest =>
    if c = '$' then
      match rest with
      | [] => ['$']
      | c₂ :: rest' =>
        if c₂ = '$' then '$' :: getSubstitution matched before after rest'
        else if c₂ = '&' then matched ++ getSubstitution matched before after rest'
        else if c₂ = '\x60' then before ++ getSubstitution matched before after rest'
        else if c₂ = '\x27' then after ++ getSubstitution matched before after rest'
        else '$' :: getSubstitution matched before after (c₂ :: rest')
    else c :: getSubstitution matched before after rest

/-- JavaScript global regular-expression replacement with a string
replacement argument: scan left to right, replace each (non-overlapping,
leftmost) match of the token pattern by `GetSubstitution(repl)`, and
continue after the match.  `before` accumulates the already-scanned part
of the subject in reverse, so that `` $` `` and `$'` refer to the
original subject around each match.  The `fuel` argument only bounds the
recursion; with `fuel ≥ s.length` (as used below) the `0` case is never
reached. -/
def regexReplaceFuel (atoms : List PatAtom) (repl : List Char) :
    Nat → List Char → List Char → List Char
  | 0, _, s => s
  | fuel + 1, before, s =>
    match s with
    | [] => []
    | c :: s' =>
      match matchSeq atoms (c :: s') with
      | some (n + 1) =>
        getSubstitution (c :: List.take n s') before.reverse (List.drop n s') repl
          ++ regexReplaceFuel atoms repl fuel
              ((c :: List.take n s').reverse ++ before) (List.drop n s')
      | _ => c :: regexReplaceFuel atoms repl fuel (c :: before) s'

/-- Global replacement over a whole character list. -/
def regexReplaceAll (atoms : List PatAtom) (repl : List Char) (s : List Char) : List Char :=
  regexReplaceFuel atoms repl s.length [] s

/-- A replacement string is dollar-safe when no `$` in it is immediately
followed by `$`, `&`, a backtick or a quote; GetSubstitution inserts such
a string literally. -/
def dollarSafe : List Char → Bool
  | [] => true
  | [_] => true
  | c :: c₂ :: rest =>
    (if c = '$' then !isDollarSpecial c₂ else true) && dollarSafe (c₂ :: rest)

/-! ## `restorePlaceholders` (content.js lines 112-130) -/

/-- The wrapper markup inserted for a matched placeholder:
`<span class="immersive-translate-placeholder">${originalHtml}</span>`. -/
def placeholderSpan (originalHtml : String) : String :=
  "<span class=\"immersive-translate-placeholder\">" ++ originalHtml ++ "</span>"

/-- Embedding of `restorePlaceholders` from content.js.  The placeholder
map is the insertion-ordered entry list of the JavaScript object
(`Object.entries(placeholderMap)`).  The translated text is HTML-escaped
first, then each entry's fuzzy pattern is globally replaced by the wrapper
markup around the original (unescaped) markup. -/
def restorePlaceholders (translatedText : String) (placeholderMap : List (String × String)) : String :=
  if translatedText = "" then ""
  else
    String.mk (placeholderMap.foldl
      (fun html entry =>
        regexReplaceAll (tokenAtoms entry.1.data) (placeholderSpan entry.2).data html)
      (escapeHtmlL translatedText.data))

/-! ## Drift relations for placeholder tokens

The round-trip claims quantify over "drifted" occurrences of a placeholder
token inside translated text: the translation backend may re-space or
re-write the token.  `DriftC1` captures the documented tolerances
(whitespace inserted between characters, halfwidth-to-fullwidth underscore
substitution); `DriftC10` captures the wider tolerances actually accepted
by the generated pattern (case changes and underscores turned into `*` or
whitespace). -/

/-- The documented drift: each token character appears unchanged (an
underscore possibly as fullwidth `＿`), with a run of whitespace allowed
after each character. -/
inductive DriftC1 : List Char → List Char → Prop where
  | nil : DriftC1 [] []
  | cons : ∀ {c c' : Char} {ws t d : List Char},
      (c' = c ∨ (c = '_' ∧ c' = '＿')) → ws.all isJsWs = true →
      DriftC1 t d → DriftC1 (c :: t) (c' :: (ws ++ d))

/-- Executable check for `DriftC1` on whitespace-free tokens: each drifted
character must appear immediately, and the whitespace run before the next
character is skipped greedily. -/
def driftC1check : List Char → List Char → Bool
  | [], d => d.isEmpty
  | _ :: _, [] => false
  | c :: t, c' :: d =>
    (c' = c || (c = '_' && c' = '＿')) &&
      (match t with
       | [] => d.isEmpty
       | _ :: _ => driftC1check t (d.dropWhile isJsWs))

/-- The wider drift accepted by the generated pattern: letters may change
case (the `i` flag) and an underscore may additionally appear as `*` or as
any whitespace character (the members of the class `[\s*_\s*＿\s*]`). -/
inductive DriftC10 : List Char → List Char → Prop where
  | nil : DriftC10 [] []
  | lit : ∀ {c c' : Char} {ws t d : List Char},
      c'.toLower = c.toLower → c ≠ '_' → ws.all isJsWs = true →
      DriftC10 t d → DriftC10 (c :: t) (c' :: (ws ++ d))
  | und : ∀ {c' : Char} {ws t d : List Char},
      (c' = '_' ∨ c' = '＿' ∨ c' = '*' ∨ isJsWs c' = true) → ws.all isJsWs = true →
      DriftC10 t d → DriftC10 ('_' :: t) (c' :: (ws ++ d))

/-- The characters placeholder ids are built from (`__MATH_n__`,
`__CODE_n__`). -/
def tokenAlphabet : List Char :=
  "_MATHCODE0123456789".data

/-- Semantic drift: each token character is replaced by a character its
atom accepts, with whitespace runs between characters.  Both `DriftC1`
and `DriftC10` embed into this relation. -/
inductive FuzzyDrift : List Char → List Char → Prop where
  | nil : FuzzyDrift [] []
  | cons : ∀ {c c' : Char} {ws t d : List Char},
      atomMatch (atomOf c) c' = true → ws.all isJsWs = true →
      FuzzyDrift t d → FuzzyDrift (c :: t) (c' :: (ws ++ d))

/-- Relational semantics of `matchRun`: `ParseRel gap as s n` holds when
the pattern whose remaining atoms are `as` (with a pending `\s*` separator
when `gap` is true) admits a parse consuming the first `n` characters of
`s`. -/
inductive ParseRel : Bool → List PatAtom → List Char → Nat → Prop where
  | nil : ∀ (gap : Bool) (s : List Char), ParseRel gap [] s 0
  | atomLast : ∀ (gap : Bool) (a : PatAtom) (c : Char) (s : List Char),
      atomMatch a c = true → ParseRel gap [a] (c :: s) 1
  | atomCons : ∀ (gap : Bool) (a a' : PatAtom) (as : List PatAtom) (c : Char) (s : List Char) (n : Nat),
      atomMatch a c = true → ParseRel true (a' :: as) s n →
      ParseRel gap (a :: a' :: as) (c :: s) (n + 1)
  | wsSkip : ∀ (a : PatAtom) (as : List PatAtom) (c : Char) (s : List Char) (n : Nat),
      isJsWs c = true → ParseRel true (a :: as) s n →
      ParseRel true (a :: as) (c :: s) (n + 1)

/-! ## Document model and `getTranslatableText` (content.js lines 73-107) -/

/-- A document node: a text node or an element with a tag, an attribute
list and child nodes. -/
inductive DomNode where
  | text (s : String)
  | elem (tag : String) (attrs : List (String × String)) (children : List DomNode)

/-- ASCII whitespace, the separator set of `DOMTokenList` (class lists). -/
def isAsciiWs (c : Char) : Bool :=
  c = ' ' || c = '\t' || c = '\n' || c = '\x0c' || c = '\r'

/-- Split a character list on ASCII whitespace (accumulator holds the
current token reversed). -/
def splitWsAux (cur : List Char) : List Char → List (List Char)
  | [] => [cur.reverse]
  | c :: s => if isAsciiWs c then cur.reverse :: splitWsAux [] s else splitWsAux (c :: cur) s

/-- Value of an attribute, or the empty string. -/
def attrValue (attrs : List (String × String)) (name : String) : String :=
  (List.lookup name attrs).getD ""

/-- Whether the `class` attribute contains the given class token (the
matching used by a `.name` class selector). -/
def hasClassToken (attrs : List (String × String)) (name : String) : Bool :=
  (splitWsAux [] (attrValue attrs "class").data).contains name.data

/-- The selector
`'.MathJax, .jax, .math, .katex, .mjx-chtml, script[type^="math/"], math'`
used for the math-placeholder pass. -/
def mathSelectorHit (tag : String) (attrs : List (String × String)) : Bool :=
  hasClassToken attrs "MathJax" || hasClassToken attrs "jax" ||
  hasClassToken attrs "math" || hasClassToken attrs "katex" ||
  hasClassToken attrs "mjx-chtml" ||
  (tag = "script" && "math/".data.isPrefixOf (attrValue attrs "type").data) ||
  tag = "math"

/-- The selector `'code, pre'` used for the code-placeholder pass. -/
def codeSelectorHit (tag : String) (_attrs : List (String × String)) : Bool :=
  tag = "code" || tag = "pre"

/-- Serialization escape for text nodes (`&`, `<`, `>`, NBSP). -/
def serEscapeText (s : List Char) : List Char :=
  replaceChar '\xa0' "&nbsp;".data
    (replaceChar '>' "&gt;".data
      (replaceChar '<' "&lt;".data
        (replaceChar '&' "&amp;".data s)))

/-- Serialization escape for attribute values (`&`, `"`, NBSP). -/
def serEscapeAttr (s : List Char) : List Char :=
  replaceChar '\xa0' "&nbsp;".data
    (replaceChar '"' "&quot;".data
      (replaceChar '&' "&amp;".data s))

/-- Serialized attribute list, in order: ` name="value"` for each. -/
def attrsSer : List (String × String) → String
  | [] => ""
  | p :: ps => " " ++ p.1 ++ "=\"" ++ String.mk (serEscapeAttr p.2.data) ++ "\"" ++ attrsSer ps

mutual

/-- `outerHTML` of a node: the HTML-fragment serialization. -/
def outerHTML : DomNode → String
  | DomNode.text s => String.mk (serEscapeText s.data)
  | DomNode.elem tag attrs cs =>
    "<" ++ tag ++ attrsSer attrs ++ ">" ++ innerHTML cs ++ "</" ++ tag ++ ">"

/-- `innerHTML` of a child list. -/
def innerHTML : List DomNode → String
  | [] => ""
  | c :: cs => outerHTML c ++ innerHTML cs

end

mutual

/-- `textContent` of a node: the concatenated text-node data.  (The clone
handled by `getTranslatableText` is detached, so `clone.innerText` falls
back to this behaviour.) -/
def textContent : DomNode → String
  | DomNode.text s => s
  | DomNode.elem _ _ cs => textContentList cs

/-- `textContent` of a child list. -/
def textContentList : List DomNode → String
  | [] => ""
  | c :: cs => textContent c ++ textContentList cs

end

mutual

/-- The descendants of a node (the node itself included) matching the
predicate, in document (pre)order — the snapshot a `querySelectorAll`
call takes before the `forEach` mutation loop runs. -/
def matchedNodes (p : String → List (String × String) → Bool) : DomNode → List DomNode
  | DomNode.text _ => []
  | DomNode.elem tag attrs cs =>
    (if p tag attrs then [DomNode.elem tag attrs cs] else []) ++ matchedForest p cs

/-- Pre-order matches of a node list. -/
def matchedForest (p : String → List (String × String) → Bool) : List DomNode → List DomNode
  | [] => []
  | n :: ns => matchedNodes p n ++ matchedForest p ns

end

/-- The placeholder id `__KIND_i__` built by the source
(`` `__MATH_${placeholderIndex++}__` `` and the `CODE` analogue). -/
def placeholderId (kind : String) (i : Nat) : String :=
  "__" ++ kind ++ "_" ++ toString i ++ "__"

/-- Map entries for matched nodes that were detached by an enclosing
replacement: `forEach` still assigns each a token and records its
`outerHTML` (taken before the node's own mutation), but their token text
never appears in the clone. -/
def nestedEntries (kind : String) : Nat → List DomNode → List (String × String)
  | _, [] => []
  | i, n :: ns => (placeholderId kind i, outerHTML n) :: nestedEntries kind (i + 1) ns

mutual

/-- One placeholder pass over a node, with the running placeholder index:
a matching element records `{token: outerHTML}` and has its content
replaced by `` ` ${id} ` `` (`el.textContent = ` ${id} ``); its matched
descendants still receive tokens and map entries (the `querySelectorAll`
snapshot was taken before mutation) but are detached. -/
def replaceNode (p : String → List (String × String) → Bool) (kind : String) :
    DomNode → Nat → DomNode × Nat × List (String × String)
  | DomNode.text s, i => (DomNode.text s, i, [])
  | DomNode.elem tag attrs cs, i =>
    if p tag attrs then
      let tok := placeholderId kind i
      let nested := matchedForest p cs
      (DomNode.elem tag attrs [DomNode.text (" " ++ tok ++ " ")],
       i + 1 + nested.length,
       (tok, outerHTML (DomNode.elem tag attrs cs)) :: nestedEntries kind (i + 1) nested)
    else
      let r := replaceForest p kind cs i
      (DomNode.elem tag attrs r.1, r.2.1, r.2.2)

/-- The placeholder pass over a node list, threading the index. -/
def replaceForest (p : String → List (String × String) → Bool) (kind : String) :
    List DomNode → Nat → List DomNode × Nat × List (String × String)
  | [], i => ([], i, [])
  | n :: ns, i =>
    let rn := replaceNode p kind n i
    let rns := replaceForest p kind ns rn.2.1
    (rn.1 :: rns.1, rns.2.1, rn.2.2 ++ rns.2.2)

end

/-- One pass rooted at the cloned fragment: `querySelectorAll` only
selects proper descendants, so the root element itself is never
replaced. -/
def runPass (p : String → List (String × String) → Bool) (kind : String)
    (root : DomNode) (i : Nat) : DomNode × Nat × List (String × String) :=
  match root with
  | DomNode.text s => (DomNode.text s, i, [])
  | DomNode.elem tag attrs cs =>
    let r := replaceForest p kind cs i
    (DomNode.elem tag attrs r.1, r.2.1, r.2.2)

/-- Collapse every whitespace run to a single space
(`.replace(/\s+/g, ' ')`); `prevWs` records whether the previous character
was part of a run already emitted. -/
def collapseWsAux (prevWs : Bool) : List Char → List Char
  | [] => []
  | c :: s =>
    if isJsWs c then
      if prevWs then collapseWsAux true s else ' ' :: collapseWsAux true s
    else c :: collapseWsAux false s

/-- `.replace(/\s+/g, ' ')` over a character list. -/
def collapseWs (s : List Char) : List Char :=
  collapseWsAux false s

/-- `.trim()`: strip leading and trailing whitespace. -/
def trimWs (s : List Char) : List Char :=
  ((s.dropWhile isJsWs).reverse.dropWhile isJsWs).reverse

/-- Embedding of `getTranslatableText` from content.js: run the math pass
then the code pass over the cloned fragment (sharing the placeholder
index), flatten the remaining text, collapse whitespace and trim.  The
placeholder map is returned as its insertion-ordered entry list (math
entries then code entries). -/
def getTranslatableText (element : DomNode) : String × List (String × String) :=
  let m := runPass mathSelectorHit "MATH" element 0
  let c := runPass codeSelectorHit "CODE" m.1 m.2.1
  (String.mk (trimWs (collapseWs (textContent c.1).data)), m.2.2 ++ c.2.2)

/-! ## Translation client (background.js / part_001)

The remote backend and the retry clock are modelled as oracles: `out ci k`
is the outcome of attempt `k` of chunk `ci` — either a thrown
transport/HTTP error (`fetch` failing or `!response.ok`) or the parsed
JSON payload.  Each model returns, besides its result, the trace data the
claims talk about (delay lists, attempt counts). -/

/-- One item of a JSON array response: a string or a nested array. -/
inductive ApiItem where
  | str (s : String)
  | arr (l : List String)
deriving DecidableEq

/-- A parsed JSON response: an array of items, or a non-array value
(coerced via `String(data)` in the single-text branch). -/
inductive ApiData where
  | arr (items : List ApiItem)
  | scalar (s : String)
deriving DecidableEq

/-- `Array.isArray(item) ? item[0] : String(item)` — `none` models the
JavaScript `undefined` produced by `[][0]`. -/
def normalizeItem : ApiItem → Option String
  | ApiItem.str s => some s
  | ApiItem.arr l => l.head?

/-- Response normalization of `translateBatch` (part_001 lines 136-149):
for a single text, `[Array.isArray(data[0]) ? data[0][0] : data[0]]` when
the payload is an array, else `[String(data)]`; for several texts,
`data.map(item => Array.isArray(item) ? item[0] : String(item))`.
`none` models the `TypeError` thrown by `.map` on a non-array payload. -/
def normalizeResponse (numTexts : Nat) (data : ApiData) : Option (List (Option String)) :=
  if numTexts = 1 then
    some (match data with
      | ApiData.arr items => [items.head?.bind normalizeItem]
      | ApiData.scalar s => [some s])
  else
    match data with
    | ApiData.arr items => some (items.map normalizeItem)
    | ApiData.scalar _ => none

/-- One attempt of the retry loop: a transport/HTTP failure is an error;
a parsed payload is normalized (a normalization `TypeError` is caught by
the same `try` block and also retried). -/
def attemptStep (numTexts : Nat) (o : Except String ApiData) : Except String (List (Option String)) :=
  match o with
  | Except.error e => Except.error e
  | Except.ok data =>
    match normalizeResponse numTexts data with
    | some r => Except.ok r
    | none => Except.error "TypeError"

/-- `const maxRetries = 3` (part_001 line 123). -/
def maxRetries : Nat := 3

/-- The retry loop of `translateBatch` from attempt number `attempt`:
on failure, if `attempt < maxRetries - 1`, wait `2^attempt * 500` ms and
retry, else rethrow.  Returns the result, the list of delays awaited, and
the number of attempts made.  The fuel argument drives the recursion; it
is called with `maxRetries`, which the `attempt < maxRetries - 1` guard
never exhausts. -/
def retryFrom (numTexts : Nat) (out : Nat → Except String ApiData) (attempt : Nat) :
    Nat → Except String (List (Option String)) × List Nat × Nat
  | 0 => (Except.error "", [], 0)
  | fuel + 1 =>
    match attemptStep numTexts (out attempt) with
    | Except.ok r => (Except.ok r, [], 1)
    | Except.error e =>
      if attempt < maxRetries - 1 then
        let r := retryFrom numTexts out (attempt + 1) fuel
        (r.1, (2 ^ attempt * 500) :: r.2.1, r.2.2 + 1)
      else (Except.error e, [], 1)

/-- Embedding of `translateBatch` (part_001 lines 108-159) for one chunk:
the whole retry loop, starting at attempt 0. -/
def translateBatchM (numTexts : Nat) (out : Nat → Except String ApiData) :
    Except String (List (Option String)) × List Nat × Nat :=
  retryFrom numTexts out 0 maxRetries

/-- `const batchSize = 10` of `fetchTranslationsFromApi` (part_001 line 84). -/
def chunkSize : Nat := 10

/-- Chunk loop of `fetchTranslationsFromApi`: slice ten texts, translate
the chunk, concatenate the (always list-shaped) results; a chunk error
propagates.  Returns the result and the total number of fetch attempts
made.  Fuel-driven recursion, called with `texts.length` (each chunk
consumes at least one text). -/
def fetchGoFuel (out : Nat → Nat → Except String ApiData) :
    Nat → List String → Nat → Except String (List (Option String)) × Nat
  | 0, _, _ => (Except.ok [], 0)
  | fuel + 1, ts, ci =>
    match ts with
    | [] => (Except.ok [], 0)
    | _ :: _ =>
      let chunk := ts.take chunkSize
      let b := translateBatchM chunk.length (out ci)
      match b.1 with
      | Except.error e => (Except.error e, b.2.2)
      | Except.ok vals =>
        let r := fetchGoFuel out fuel (ts.drop chunkSize) (ci + 1)
        match r.1 with
        | Except.error e => (Except.error e, b.2.2 + r.2)
        | Except.ok vs => (Except.ok (vals ++ vs), b.2.2 + r.2)

/-- Embedding of `fetchTranslationsFromApi` (part_001 lines 82-103). -/
def fetchTranslationsFromApi (texts : List String)
    (out : Nat → Nat → Except String ApiData) :
    Except String (List (Option String)) × Nat :=
  fetchGoFuel out texts.length texts 0

/-- The cache probe `if (cache[hash])` of `translateTexts`: a JavaScript
truthiness test, so a cached *empty* translation is treated as a miss. -/
def cacheProbe (hash : String → String) (cache : String → Option String) (t : String) : Option String :=
  match cache (hash t) with
  | some v => if v = "" then none else some v
  | none => none

/-- The cache-check loop of `translateTexts` (part_001 lines 31-41):
`results[i]` from cache where present, and the `(index, text)` pairs of
the uncached texts, in order, with `i` the index of the first text. -/
def cacheScan (hash : String → String) (cache : String → Option String) :
    List String → Nat → List (Option String) × List (Nat × String)
  | [], _ => ([], [])
  | t :: ts, i =>
    let r := cacheScan hash cache ts (i + 1)
    match cacheProbe hash cache t with
    | some v => (some v :: r.1, r.2)
    | none => (none :: r.1, (i, t) :: r.2)

/-- The merge loop `results[uncachedIndices[i]] = apiResults[i]`
(part_001 lines 54-62): consume the API results positionally and write
each at its recorded original index (`none` models `undefined` when the
API returned fewer results). -/
def applyMerge : List (Nat × String) → List (Option String) → List (Option String) → List (Option String)
  | [], _, results => results
  | p :: unc, api, results => applyMerge unc api.tail (results.set p.1 api.head?.join)

/-- The `newCache[hash] = translated` writes of the same loop.  Entries
whose value is `undefined` are dropped: `chrome.storage.local.set`
serialization omits `undefined` properties. -/
def newCacheEntries (hash : String → String) :
    List (Nat × String) → List (Option String) → List (String × String)
  | [], _ => []
  | p :: unc, api =>
    match api.head?.join with
    | some v => (hash p.2, v) :: newCacheEntries hash unc api.tail
    | none => newCacheEntries hash unc api.tail

/-- The cache write `{ ...cache, ...newCache }`: new entries win over old
ones, and a later duplicate key wins over an earlier one. -/
def cacheUnion (entries : List (String × String)) (cache : String → Option String) :
    String → Option String :=
  fun h =>
    match List.lookup h entries.reverse with
    | some v => some v
    | none => cache h

/-- Embedding of `translateTexts` (part_001 lines 21-77), the
cache-then-fetch operation.  The content hash is a parameter (the source
uses SHA-256 hex via `crypto.subtle`; only its determinism matters here).
Returns the result (an error when the fetch for the uncached texts
failed, in which case nothing is returned and the cache is not written),
the cache state after the call, and the total number of fetch attempts
performed. -/
def translateTexts (hash : String → String) (cache : String → Option String)
    (texts : List String) (out : Nat → Nat → Except String ApiData) :
    Except String (List (Option String)) × (String → Option String) × Nat :=
  let scan := cacheScan hash cache texts 0
  match scan.2 with
  | [] => (Except.ok scan.1, cache, 0)
  | _ :: _ =>
    let f := fetchTranslationsFromApi (scan.2.map Prod.snd) out
    match f.1 with
    | Except.error e => (Except.error e, cache, f.2)
    | Except.ok api =>
      (Except.ok (applyMerge scan.2 api scan.1),
       cacheUnion (newCacheEntries hash scan.2 api) cache,
       f.2)

/-- Modelled from the spec (§3 TranslationBatch, §4.4): the positional
contract — each input's result is its cache value when cached, otherwise
the next fetched result in order.  Stated from the spec's words, to be
compared with the index-bookkeeping implementation `translateTexts`. -/
def specPositional (hash : String → String) (cache : String → Option String)
    (api : List (Option String)) : List String → List (Option String)
  | [] => []
  | t :: ts =>
    match cacheProbe hash cache t with
    | some v => some v :: specPositional hash cache api ts
    | none => api.head?.join :: specPositional hash cache api.tail ts

/-! ## Session state and the page pass (content.js lines 36-37, 159-228, 286-296) -/

/-- The module-level flags of content.js. -/
structure SessionState where
  isTranslated : Bool
  isTranslating : Bool
deriving DecidableEq

/-- The observable state of one collected fragment: its
`data-immersive-translated` marker, whether a loading-indicator sibling is
present, and whether a translation-result sibling is present. -/
structure FragState where
  marker : Option String
  hasLoading : Bool
  hasTranslation : Bool
deriving DecidableEq

/-- Response of the service worker for one batch: `{error}` (or a thrown
`sendMessage` error — both are handled identically) or `{translated}`. -/
inductive BatchResp where
  | err (msg : String)
  | ok (translated : List (Option String))

/-- The truthiness test `if (response.translated[index])`: a missing,
`null` or empty-string entry is falsy. -/
def truthyAt (tr : List (Option String)) (i : Nat) : Bool :=
  match tr[i]? with
  | some (some v) => v ≠ ""
  | _ => false

/-- Error path of a batch (`response.error` or a thrown error): loading
indicators removed, markers cleared. -/
def failBatch (batch : List FragState) : List FragState :=
  batch.map fun f => FragState.mk none false f.hasTranslation

/-- Success path of a batch: for each element, the loading indicator is
removed; where `translated[index]` is truthy, the translation sibling is
(re)inserted and the marker set to `done` — otherwise the marker is left
as it was (still `loading`). -/
def applyBatchResults (tr : List (Option String)) : List FragState → Nat → List FragState
  | [], _ => []
  | f :: fs, i =>
    (if truthyAt tr i then FragState.mk (some "done") false true
     else FragState.mk f.marker false f.hasTranslation) :: applyBatchResults tr fs (i + 1)

/-- `const batchSize = 20` of `translatePage` (content.js line 171). -/
def pageBatchSize : Nat := 20

/-- The batch loop of `translatePage`: slice twenty fragments, mark them
`loading` and show indicators, send the batch, then apply the success or
error path; a failed batch `continue`s to the next one.  Fuel-driven,
called with `targets.length`. -/
def runBatchesFuel (out : Nat → BatchResp) : Nat → List FragState → Nat → List FragState
  | 0, fs, _ => fs
  | fuel + 1, fs, bi =>
    match fs with
    | [] => []
    | _ :: _ =>
      let batch := (fs.take pageBatchSize).map fun f =>
        FragState.mk (some "loading") true f.hasTranslation
      let processed :=
        match out bi with
        | BatchResp.err _ => failBatch batch
        | BatchResp.ok tr => applyBatchResults tr batch 0
      processed ++ runBatchesFuel out fuel (fs.drop pageBatchSize) (bi + 1)

/-- Embedding of `translatePage`: the re-entrancy guard, the
zero-targets early return (which resets `isTranslating` and never sets
`isTranslated`), and the batch loop followed by `isTranslated = true`.
`targets` is the list returned by `collectTargetElements()`.  Besides the
final session state and fragment states, the trace of session states
passed through is returned (initial, in-flight, final). -/
def translatePageM (s : SessionState) (targets : List FragState) (out : Nat → BatchResp) :
    SessionState × List FragState × List SessionState :=
  if s.isTranslating then (s, targets, [s])
  else
    let during := SessionState.mk s.isTranslated true
    match targets with
    | [] =>
      (SessionState.mk s.isTranslated false, [],
       [s, during, SessionState.mk s.isTranslated false])
    | _ :: _ =>
      let frags := runBatchesFuel out targets.length targets 0
      (SessionState.mk true false, frags, [s, during, SessionState.mk true false])

/-- Embedding of `removeAllTranslations` (content.js lines 286-296):
remove every translation sibling and loading indicator, clear every
marker, and reset `isTranslated`. -/
def removeAllTranslationsM (s : SessionState) (frags : List FragState) :
    SessionState × List FragState :=
  (SessionState.mk false s.isTranslating, frags.map fun _f => FragState.mk none false false)

/-! ## Helper lemmas: escaping -/

theorem replaceChar_append (c : Char) (r : List Char) (l₁ l₂ : List Char) :
    replaceChar c r (l₁ ++ l₂) = replaceChar c r l₁ ++ replaceChar c r l₂ := by
  induction l₁ with
  | nil => rfl
  | cons d l ih => by_cases h : d = c <;> simp [replaceChar, h, ih]

theorem replaceChar_eq_self (c : Char) (r : List Char) (l : List Char)
    (h : ∀ x ∈ l, x ≠ c) : replaceChar c r l = l := by
  induction l with
  | nil => rfl
  | cons d l ih =>
    have hd : d ≠ c := h d (List.mem_cons_self d l)
    simp only [replaceChar, if_neg hd]
    rw [ih fun x hx => h x (List.mem_cons_of_mem d hx)]

theorem escapeHtmlL_append (l₁ l₂ : List Char) :
    escapeHtmlL (l₁ ++ l₂) = escapeHtmlL l₁ ++ escapeHtmlL l₂ := by
  simp [escapeHtmlL, replaceChar_append]

theorem escapeHtmlL_eq_self (l : List Char)
    (h : ∀ x ∈ l, isEscapedChar x = false) : escapeHtmlL l = l := by
  have h5 : ∀ x ∈ l, ¬x = '&' ∧ ¬x = '<' ∧ ¬x = '>' ∧ ¬x = '"' ∧ ¬x = '\x27' := by
    intro x hx
    have hh := h x hx
    have := by simpa [isEscapedChar] using hh
    tauto
  rw [escapeHtmlL,
    replaceChar_eq_self '&' _ l (fun x hx => (h5 x hx).1),
    replaceChar_eq_self '<' _ l (fun x hx => (h5 x hx).2.1),
    replaceChar_eq_self '>' _ l (fun x hx => (h5 x hx).2.2.1),
    replaceChar_eq_self '"' _ l (fun x hx => (h5 x hx).2.2.2.1),
    replaceChar_eq_self '\x27' _ l (fun x hx => (h5 x hx).2.2.2.2)]

theorem jsWs_not_escaped (c : Char) (h : isJsWs c = true) : isEscapedChar c = false := by
  by_contra hne
  have htrue : isEscapedChar c = true := by
    cases hesc : isEscapedChar c
    · exact absurd hesc hne
    · rfl
  have hcase : c = '&' ∨ c = '<' ∨ c = '>' ∨ c = '"' ∨ c = '\x27' := by
    have := by simpa [isEscapedChar] using htrue
    tauto
  rcases hcase with h' | h' | h' | h' | h' <;> subst h' <;> exact absurd h (by decide)

/-! ## Helper lemmas: the matcher -/

theorem matchRun_complete {gap : Bool} {as : List PatAtom} {s : List Char} {n : Nat}
    (h : ParseRel gap as s n) : ∃ m, matchRun gap as s = some m := by
  induction h with
  | nil gap s => cases s <;> exact ⟨0, rfl⟩
  | atomLast gap a c s hm =>
    cases hgc : (gap && isJsWs c) with
    | false =>
      exact ⟨1, by simp [matchRun, hm, hgc]⟩
    | true =>
      cases hmr : matchRun true [a] s with
      | none => exact ⟨1, by simp [matchRun, hm, hgc, hmr]⟩
      | some k => exact ⟨k + 1, by simp [matchRun, hm, hgc, hmr]⟩
  | atomCons gap a a' as c s n hm _hrec ih =>
    obtain ⟨m, hmr⟩ := ih
    cases hgc : (gap && isJsWs c) with
    | false =>
      exact ⟨m + 1, by simp [matchRun, hm, hgc, hmr]⟩
    | true =>
      cases hout : matchRun true (a :: a' :: as) s with
      | none => exact ⟨m + 1, by simp [matchRun, hm, hgc, hmr, hout]⟩
      | some k => exact ⟨k + 1, by simp [matchRun, hm, hgc, hmr, hout]⟩
  | wsSkip a as c s n hws _hrec ih =>
    obtain ⟨m, hmr⟩ := ih
    exact ⟨m + 1, by simp [matchRun, hws, hmr]⟩

theorem matchRun_pos {gap : Bool} {a : PatAtom} {as : List PatAtom} {s : List Char} {m : Nat}
    (h : matchRun gap (a :: as) s = some m) : 1 ≤ m := by
  cases s with
  | nil => simp [matchRun] at h
  | cons c s' =>
    simp only [matchRun] at h
    split at h
    · split at h
      · injection h with h'
        omega
      · split at h
        · split at h
          · injection h with h'
            omega
          · split at h
            · injection h with h'
              omega
            · exact absurd h (by simp)
        · exact absurd h (by simp)
    · split at h
      · split at h
        · injection h with h'
          omega
        · split at h
          · injection h with h'
            omega
          · exact absurd h (by simp)
      · exact absurd h (by simp)

theorem ws_parse {a : PatAtom} {as : List PatAtom} {s : List Char} {n : Nat}
    (ws : List Char) (hws : ws.all isJsWs = true)
    (h : ParseRel true (a :: as) s n) :
    ParseRel true (a :: as) (ws ++ s) (n + ws.length) := by
  induction ws with
  | nil => simpa using h
  | cons w ws ih =>
    have hpair : isJsWs w = true ∧ ws.all isJsWs = true := by
      simpa only [List.all_cons, Bool.and_eq_true] using hws
    have hw := hpair.1
    have hws' := hpair.2
    have := ParseRel.wsSkip a as w (ws ++ s) (n + ws.length) hw (ih hws')
    simpa [Nat.add_comm, Nat.add_assoc, Nat.add_left_comm] using this

theorem fuzzyDrift_nil_right {d : List Char} (h : FuzzyDrift [] d) : d = [] := by
  cases h
  rfl

theorem fuzzyDrift_ne_nil {t d : List Char} (h : FuzzyDrift t d) (ht : t ≠ []) : d ≠ [] := by
  cases h with
  | nil => exact absurd rfl ht
  | cons => simp

theorem fuzzy_parse {t d : List Char} (h : FuzzyDrift t d) (ht : t ≠ [])
    (rest : List Char) :
    ∀ gap, ∃ n, ParseRel gap (tokenAtoms t) (d ++ rest) n := by
  induction h with
  | nil => exact absurd rfl ht
  | cons hm hws hd ih =>
    rename_i c c' ws t d
    intro gap
    cases t with
    | nil =>
      have hd0 : d = [] := fuzzyDrift_nil_right hd
      subst hd0
      exact ⟨1, by
        have := ParseRel.atomLast gap (atomOf c) c' (ws ++ rest) hm
        simpa [tokenAtoms] using this⟩
    | cons c₂ t' =>
      obtain ⟨m, hp⟩ := ih (by simp) true
      have hp' : ParseRel true (tokenAtoms (c₂ :: t')) (ws ++ (d ++ rest)) (m + ws.length) := by
        have hform : tokenAtoms (c₂ :: t') = atomOf c₂ :: tokenAtoms t' := rfl
    /- reshape to apply ws_parse (needs a cons head) -/
        rw [hform] at hp ⊢
        exact ws_parse ws hws hp
      have := ParseRel.atomCons gap (atomOf c) (atomOf c₂) (tokenAtoms t') c'
        (ws ++ (d ++ rest)) (m + ws.length) hm (by simpa [tokenAtoms] using hp')
      exact ⟨m + ws.length + 1, by simpa [tokenAtoms, List.append_assoc] using this⟩

theorem getSubstitution_of_safe (matched before after : List Char) :
    ∀ repl : List Char, dollarSafe repl = true →
      getSubstitution matched before after repl = repl := by
  intro repl
  induction repl with
  | nil => intro _; rfl
  | cons c rest ih =>
    intro h
    by_cases hc : c = '$'
    · subst hc
      cases rest with
      | nil => rfl
      | cons c₂ rest' =>
        have hp : (!isDollarSpecial c₂ && dollarSafe (c₂ :: rest')) = true := by
          simpa [dollarSafe] using h
        rw [Bool.and_eq_true, Bool.not_eq_true'] at hp
        have h4 : ¬c₂ = '$' ∧ ¬c₂ = '&' ∧ ¬c₂ = '\x60' ∧ ¬c₂ = '\x27' := by
          have := by simpa [isDollarSpecial] using hp.1
          tauto
        rw [getSubstitution.eq_def]
        simp [h4.1, h4.2.1, h4.2.2.1, h4.2.2.2, ih hp.2]
    · have htail : dollarSafe rest = true := by
        cases rest with
        | nil => rfl
        | cons c₂ rest' =>
          simp only [dollarSafe, Bool.and_eq_true] at h
          exact h.2
      rw [getSubstitution.eq_def]
      simp [hc, ih htail]

theorem dollarSafe_append :
    ∀ a b : List Char, dollarSafe a = true → dollarSafe b = true →
      (∀ x y, a.getLast? = some x → b.head? = some y →
        (x = '$' → isDollarSpecial y = false)) →
      dollarSafe (a ++ b) = true := by
  intro a
  induction a with
  | nil =>
    intro b _ hb _
    simpa using hb
  | cons x a' ih =>
    intro b ha hb hj
    cases a' with
    | nil =>
      cases b with
      | nil => rfl
      | cons y b' =>
        have hstep : (if x = '$' then !isDollarSpecial y else true) = true := by
          by_cases hx : x = '$'
          · rw [if_pos hx]
            have := hj x y (by simp) (by simp) hx
            simp [this]
          · rw [if_neg hx]
        show dollarSafe (x :: y :: b') = true
        simp only [dollarSafe, Bool.and_eq_true]
        exact ⟨hstep, hb⟩
    | cons x₂ a'' =>
      have hpair : (if x = '$' then !isDollarSpecial x₂ else true) = true ∧
          dollarSafe (x₂ :: a'') = true := by
        have := ha
        simp only [dollarSafe, Bool.and_eq_true] at this
        exact this
      have hrest : dollarSafe ((x₂ :: a'') ++ b) = true := by
        apply ih b hpair.2 hb
        intro u v hu hv
        apply hj u v ?_ hv
        rw [List.getLast?_cons_cons]
        exact hu
      show dollarSafe (x :: x₂ :: (a'' ++ b)) = true
      simp only [dollarSafe, Bool.and_eq_true]
      exact ⟨hpair.1, hrest⟩

theorem dollarSafe_placeholderSpan (markup : String) (hms : dollarSafe markup.data = true) :
    dollarSafe (placeholderSpan markup).data = true := by
  have hdata : (placeholderSpan markup).data
      = "<span class=\"immersive-translate-placeholder\">".data
        ++ (markup.data ++ "</span>".data) := by
    simp [placeholderSpan, String.data_append]
  rw [hdata]
  apply dollarSafe_append _ _ (by decide) ?_ ?_
  · apply dollarSafe_append _ _ hms (by decide) ?_
    intro x y _hx hy
    have hy' : y = '<' := by
      have hh : ("</span>".data).head? = some '<' := rfl
      rw [hh] at hy
      exact (Option.some.inj hy).symm
    subst hy'
    intro _
    decide
  · intro x y hx _hy
    have hx' : x = '>' := by
      have hl : ("<span class=\"immersive-translate-placeholder\">".data).getLast?
          = some '>' := rfl
      rw [hl] at hx
      exact (Option.some.inj hx).symm
    subst hx'
    intro h'
    exact absurd h' (by decide)

theorem replace_contains (atoms : List PatAtom) (repl : List Char)
    (hsafe : ∀ matched before after : List Char,
      getSubstitution matched before after repl = repl) :
    ∀ (u : List Char) (fuel : Nat) (acc v : List Char) (m : Nat),
      matchSeq atoms v = some (m + 1) → (u ++ v).length ≤ fuel →
      ∃ x y, regexReplaceFuel atoms repl fuel acc (u ++ v) = x ++ repl ++ y := by
  intro u
  induction u with
  | nil =>
    intro fuel acc v m hm hl
    cases v with
    | nil =>
      cases atoms with
      | nil => simp [matchSeq, matchRun] at hm
      | cons a as => simp [matchSeq, matchRun] at hm
    | cons c s' =>
      cases fuel with
      | zero => simp at hl
      | succ f =>
        refine ⟨[], regexReplaceFuel atoms repl f ((c :: List.take m s').reverse ++ acc)
          (List.drop m s'), ?_⟩
        simp [regexReplaceFuel, hm, hsafe]
  | cons z u ih =>
    intro fuel acc v m hm hl
    cases fuel with
    | zero => simp at hl
    | succ f =>
      have hl' : (u ++ v).length ≤ f := by
        simp only [List.cons_append, List.length_cons] at hl
        omega
      cases hms : matchSeq atoms (z :: (u ++ v)) with
      | some k =>
        cases k with
        | zero =>
          obtain ⟨x, y, hxy⟩ := ih f (z :: acc) v m hm hl'
          exact ⟨z :: x, y, by simp [regexReplaceFuel, hms, hxy]⟩
        | succ n =>
          exact ⟨[], regexReplaceFuel atoms repl f
            ((z :: List.take n (u ++ v)).reverse ++ acc) (List.drop n (u ++ v)), by
            simp [regexReplaceFuel, hms, hsafe]⟩
      | none =>
        obtain ⟨x, y, hxy⟩ := ih f (z :: acc) v m hm hl'
        exact ⟨z :: x, y, by simp [regexReplaceFuel, hms, hxy]⟩

theorem tokenAtoms_cons_form {t : List Char} (ht : t ≠ []) :
    ∃ a as, tokenAtoms t = a :: as := by
  cases t with
  | nil => exact absurd rfl ht
  | cons c t' => exact ⟨atomOf c, tokenAtoms t', rfl⟩

theorem restore_contains_core (t : List Char) (markup : String) (pre d post : List Char)
    (hf : FuzzyDrift t d) (ht : t ≠ []) (hd : ∀ x ∈ d, isEscapedChar x = false)
    (hms : dollarSafe markup.data = true) :
    (placeholderSpan markup).data <:+:
      (restorePlaceholders (String.mk (pre ++ d ++ post)) [(String.mk t, markup)]).data := by
  have hdne : d ≠ [] := fuzzyDrift_ne_nil hf ht
  have hne : String.mk (pre ++ d ++ post) ≠ "" := by
    intro hcon
    have hlist : pre ++ d ++ post = ([] : List Char) := congrArg String.data hcon
    simp [List.append_eq_nil] at hlist
    exact hdne hlist.2.1
  rw [restorePlaceholders, if_neg hne]
  simp only [List.foldl_cons, List.foldl_nil]
  have hesc : escapeHtmlL (pre ++ d ++ post) =
      escapeHtmlL pre ++ (d ++ escapeHtmlL post) := by
    rw [escapeHtmlL_append (pre ++ d) post, escapeHtmlL_append pre d,
      escapeHtmlL_eq_self d hd, List.append_assoc]
  obtain ⟨n, hp⟩ := fuzzy_parse hf ht (escapeHtmlL post) false
  obtain ⟨m, hm⟩ := matchRun_complete hp
  obtain ⟨a, as, hform⟩ := tokenAtoms_cons_form ht
  have hm1 : 1 ≤ m := matchRun_pos (by rw [hform] at hm; exact hm)
  obtain ⟨m', rfl⟩ : ∃ m', m = m' + 1 := ⟨m - 1, by omega⟩
  have hspan : ∀ matched before after : List Char,
      getSubstitution matched before after (placeholderSpan markup).data
        = (placeholderSpan markup).data :=
    fun matched before after =>
      getSubstitution_of_safe matched before after _ (dollarSafe_placeholderSpan markup hms)
  obtain ⟨x, y, hxy⟩ := replace_contains (tokenAtoms t) (placeholderSpan markup).data hspan
    (escapeHtmlL pre) ((escapeHtmlL pre ++ (d ++ escapeHtmlL post)).length) []
    (d ++ escapeHtmlL post) m' hm (le_refl _)
  refine ⟨x, y, ?_⟩
  have hgoal : (String.mk (regexReplaceAll (tokenAtoms (String.mk t).data)
      (placeholderSpan markup).data
      (escapeHtmlL (String.mk (pre ++ d ++ post)).data))).data
      = x ++ (placeholderSpan markup).data ++ y := by
    show regexReplaceAll (tokenAtoms t) (placeholderSpan markup).data
      (escapeHtmlL (pre ++ d ++ post)) = x ++ (placeholderSpan markup).data ++ y
    rw [regexReplaceAll, hesc]
    exact hxy
  exact hgoal.symm

/-! ## Helper lemmas: bridging the drift relations -/

theorem driftC1_fuzzy {t d : List Char} (h : DriftC1 t d) : FuzzyDrift t d := by
  induction h with
  | nil => exact FuzzyDrift.nil
  | cons hcc hws _hd ih =>
    rename_i c c' ws t d
    refine FuzzyDrift.cons ?_ hws ih
    rcases hcc with rfl | ⟨rfl, rfl⟩
    · by_cases hc : c' = '_'
      · subst hc
        decide
      · simp [atomOf, hc, atomMatch]
    · decide

theorem listAll_ws_mem {ws : List Char} (hws : ws.all isJsWs = true) {x : Char}
    (hx : x ∈ ws) : isJsWs x = true := by
  rw [List.all_eq_true] at hws
  exact hws x hx

theorem driftC1_chars {t d : List Char} (h : DriftC1 t d)
    (ht : ∀ c ∈ t, isEscapedChar c = false) :
    ∀ x ∈ d, isEscapedChar x = false := by
  induction h with
  | nil => simp
  | cons hcc hws _hd ih =>
    rename_i c c' ws t d
    intro x hx
    simp only [List.mem_cons, List.mem_append] at hx
    rcases hx with rfl | hx | hx
    · rcases hcc with h' | ⟨_, h'⟩
      · rw [h']
        exact ht c (List.mem_cons_self c t)
      · rw [h']
        decide
    · exact jsWs_not_escaped x (listAll_ws_mem hws hx)
    · exact ih (fun a ha => ht a (List.mem_cons_of_mem c ha)) x hx

theorem driftC1_of_check : ∀ t d : List Char, driftC1check t d = true → DriftC1 t d := by
  intro t
  induction t with
  | nil =>
    intro d h
    cases d with
    | nil => exact DriftC1.nil
    | cons c' d' => simp [driftC1check] at h
  | cons c t ih =>
    intro d h
    cases d with
    | nil => simp [driftC1check] at h
    | cons c' d' =>
      simp only [driftC1check, Bool.and_eq_true] at h
      obtain ⟨hcc, hrest⟩ := h
      have hcc' : c' = c ∨ (c = '_' ∧ c' = '＿') := by
        have := hcc
        simp only [Bool.or_eq_true, Bool.and_eq_true, decide_eq_true_eq] at this
        exact this
      cases t with
      | nil =>
        have hd' : d' = [] := by
          simpa [List.isEmpty_iff] using hrest
        subst hd'
        exact @DriftC1.cons c c' [] [] [] hcc' rfl DriftC1.nil
      | cons c₂ t' =>
        have hsplit : d' = d'.takeWhile isJsWs ++ d'.dropWhile isJsWs :=
          (List.takeWhile_append_dropWhile isJsWs d').symm
        have hwstake : (d'.takeWhile isJsWs).all isJsWs = true := by
          rw [List.all_eq_true]
          intro x hx
          exact List.mem_takeWhile_imp hx
        have hrec : DriftC1 (c₂ :: t') (d'.dropWhile isJsWs) := ih _ hrest
        have := @DriftC1.cons c c' (d'.takeWhile isJsWs) (c₂ :: t') (d'.dropWhile isJsWs) hcc' hwstake hrec
        rw [← hsplit] at this
        exact this

theorem alpha_toLower_not_escaped : ∀ c ∈ tokenAlphabet, isEscapedChar c.toLower = false := by
  decide

theorem lit_drift_not_escaped (c c' : Char) (hc : c ∈ tokenAlphabet)
    (h : c'.toLower = c.toLower) : isEscapedChar c' = false := by
  by_contra hne
  have htrue : isEscapedChar c' = true := by
    cases hesc : isEscapedChar c'
    · exact absurd hesc hne
    · rfl
  have hcase : c' = '&' ∨ c' = '<' ∨ c' = '>' ∨ c' = '"' ∨ c' = '\x27' := by
    have := by simpa [isEscapedChar] using htrue
    tauto
  rcases hcase with h' | h' | h' | h' | h' <;>
    (subst h'
     have h2 := alpha_toLower_not_escaped c hc
     rw [← h] at h2
     exact absurd h2 (by decide))

theorem driftC10_fuzzy {t d : List Char} (h : DriftC10 t d) : FuzzyDrift t d := by
  induction h with
  | nil => exact FuzzyDrift.nil
  | lit hlow hne hws _hd ih =>
    rename_i c c' ws t d
    refine FuzzyDrift.cons ?_ hws ih
    simp [atomOf, hne, atomMatch, hlow]
  | und hc hws _hd ih =>
    rename_i c' ws t d
    refine FuzzyDrift.cons ?_ hws ih
    have hu : atomOf '_' = PatAtom.uclass := by decide
    rw [hu]
    rcases hc with h' | h' | h' | h' <;> simp [atomMatch, h']

theorem driftC10_chars {t d : List Char} (h : DriftC10 t d)
    (ht : ∀ c ∈ t, c ∈ tokenAlphabet) :
    ∀ x ∈ d, isEscapedChar x = false := by
  induction h with
  | nil => simp
  | lit hlow hne hws _hd ih =>
    rename_i c c' ws t d
    intro x hx
    simp only [List.mem_cons, List.mem_append] at hx
    rcases hx with rfl | hx | hx
    · exact lit_drift_not_escaped c x (ht c (List.mem_cons_self c t)) hlow
    · exact jsWs_not_escaped x (listAll_ws_mem hws hx)
    · exact ih (fun a ha => ht a (List.mem_cons_of_mem c ha)) x hx
  | und hc hws _hd ih =>
    rename_i c' ws t d
    intro x hx
    simp only [List.mem_cons, List.mem_append] at hx
    rcases hx with rfl | hx | hx
    · rcases hc with h' | h' | h' | h'
      · rw [h']; decide
      · rw [h']; decide
      · rw [h']; decide
      · exact jsWs_not_escaped x h'
    · exact jsWs_not_escaped x (listAll_ws_mem hws hx)
    · exact ih (fun a ha => ht a (List.mem_cons_of_mem '_' ha)) x hx

/-! ## Claims C1, C10, C4 -/

set_option maxRecDepth 8192 in
/-- C1 counterexample: the round trip fails for math markup containing a
`$`-escape: `String.prototype.replace` applies GetSubstitution to the
replacement string, so `<math>$$</math>` — the `outerHTML` the extraction
pass records for a math node whose text is `$$` — is inserted as
`<math>$</math>`, and the output does not contain the original markup
verbatim. -/
theorem claim_C1_counterexample :
    getTranslatableText (DomNode.elem "p" []
        [DomNode.text "see ", DomNode.elem "math" [] [DomNode.text "$$"]])
      = ("see __MATH_0__", [("__MATH_0__", "<math>$$</math>")]) ∧
    ¬ ("<math>$$</math>".data <:+:
        (restorePlaceholders "x __MATH_0__ y"
          [("__MATH_0__", "<math>$$</math>")]).data) ∧
    "<math>$</math>".data <:+:
      (restorePlaceholders "x __MATH_0__ y"
        [("__MATH_0__", "<math>$$</math>")]).data := by
  refine ⟨by decide, by decide, by decide⟩

/-- C1 (amended): for a fragment containing exactly one embedded math
node `M`, whose extraction produced the placeholder map
`{__MATH_0__: M.markup}`, restoring any translated text that contains the
token — possibly with whitespace inserted between any two of its
characters and with underscores written as fullwidth underscores —
returns markup containing `M.markup` verbatim, provided `M.markup` has no
`$` immediately followed by `$`, `&`, a backtick or a quote (such markup
is rewritten by the `$`-substitution of `String.prototype.replace`). -/
theorem claim_C1_math_roundtrip (markup : String) (pre d post : List Char)
    (hms : dollarSafe markup.data = true)
    (hd : DriftC1 "__MATH_0__".data d) :
    markup.data <:+:
      (restorePlaceholders (String.mk (pre ++ d ++ post)) [("__MATH_0__", markup)]).data := by
  have hcore := restore_contains_core "__MATH_0__".data markup pre d post
    (driftC1_fuzzy hd) (by decide)
    (driftC1_chars hd (by decide)) hms
  have hmk : String.mk "__MATH_0__".data = "__MATH_0__" := rfl
  rw [hmk] at hcore
  refine List.IsInfix.trans ?_ hcore
  refine ⟨"<span class=\"immersive-translate-placeholder\">".data, "</span>".data, ?_⟩
  show _ = (placeholderSpan markup).data
  simp [placeholderSpan, String.data_append]

/-- Witness for C1: the literal token drifted to `＿_MATH_ 0 __` inside a
translated sentence still yields the original math markup verbatim. -/
theorem claim_C1_math_roundtrip_witness :
    "<math><mi>E</mi></math>".data <:+:
      (restorePlaceholders (String.mk ("a ".data ++ "＿_MATH_ 0 __".data ++ " b".data))
        [("__MATH_0__", "<math><mi>E</mi></math>")]).data :=
  claim_C1_math_roundtrip "<math><mi>E</mi></math>" "a ".data "＿_MATH_ 0 __".data " b".data
    (by decide)
    (driftC1_of_check "__MATH_0__".data "＿_MATH_ 0 __".data (by decide))

set_option maxRecDepth 8192 in
/-- C10 counterexample: the drifted forms are matched and replaced, but
the substitution is not always the original markup verbatim — for the
entry `{__CODE_0__: <code>echo $$</code>}` the `$$` of the markup is
collapsed to `$` by the `$`-substitution of `String.prototype.replace`,
so the claimed wrapper around the original markup never appears. -/
theorem claim_C10_counterexample :
    ¬ ((placeholderSpan "<code>echo $$</code>").data <:+:
        (restorePlaceholders "a __code_0__ b"
          [("__CODE_0__", "<code>echo $$</code>")]).data) ∧
    ("<span class=\"immersive-translate-placeholder\"><code>echo $</code></span>").data <:+:
      (restorePlaceholders "a __code_0__ b"
        [("__CODE_0__", "<code>echo $$</code>")]).data := by
  refine ⟨by decide, by decide⟩

/-- C10 (amended): the fuzzy placeholder match is strictly more
permissive than the documented tolerances — for a placeholder map entry
with token `t`, occurrences whose letters changed case (the `i` flag) or
whose underscores were replaced by `*` or by whitespace (the per-character
split of `[_＿]`) are also replaced by the wrapper containing the original
markup, provided the markup has no `$` immediately followed by `$`, `&`,
a backtick or a quote (such markup is rewritten by the `$`-substitution
of `String.prototype.replace`). -/
theorem claim_C10_fuzzy_permissive (t : List Char) (markup : String) (pre d post : List Char)
    (ht : t ≠ []) (halpha : ∀ c ∈ t, c ∈ tokenAlphabet)
    (hms : dollarSafe markup.data = true) (hd : DriftC10 t d) :
    (placeholderSpan markup).data <:+:
      (restorePlaceholders (String.mk (pre ++ d ++ post)) [(String.mk t, markup)]).data :=
  restore_contains_core t markup pre d post (driftC10_fuzzy hd) ht (driftC10_chars hd halpha) hms

/-- `DriftC10.lit` with an empty whitespace run, for compact witnesses. -/
theorem driftC10_lit_nilws {c c' : Char} {t d : List Char}
    (h1 : c'.toLower = c.toLower) (h2 : c ≠ '_') (hd : DriftC10 t d) :
    DriftC10 (c :: t) (c' :: d) :=
  @DriftC10.lit c c' [] t d h1 h2 rfl hd

/-- `DriftC10.und` with an empty whitespace run, for compact witnesses. -/
theorem driftC10_und_nilws {c' : Char} {t d : List Char}
    (h : c' = '_' ∨ c' = '＿' ∨ c' = '*' ∨ isJsWs c' = true) (hd : DriftC10 t d) :
    DriftC10 ('_' :: t) (c' :: d) :=
  @DriftC10.und c' [] t d h rfl hd

/-- Witness for C10: `__CODE_0__` drifted to `__cOdE*0_＿` (case changes,
a `*` for an underscore, a fullwidth underscore) is still replaced. -/
theorem claim_C10_fuzzy_permissive_witness :
    (placeholderSpan "<code>x=1</code>").data <:+:
      (restorePlaceholders (String.mk ("a ".data ++ "__cOdE*0_＿".data ++ " b".data))
        [(String.mk "__CODE_0__".data, "<code>x=1</code>")]).data :=
  claim_C10_fuzzy_permissive "__CODE_0__".data "<code>x=1</code>" "a ".data "__cOdE*0_＿".data " b".data
    (by decide) (by decide) (by decide)
    (driftC10_und_nilws (Or.inl rfl)
      (driftC10_und_nilws (Or.inl rfl)
        (driftC10_lit_nilws (by decide) (by decide)
          (driftC10_lit_nilws (by decide) (by decide)
            (driftC10_lit_nilws (by decide) (by decide)
              (driftC10_lit_nilws (by decide) (by decide)
                (driftC10_und_nilws (Or.inr (Or.inr (Or.inl rfl)))
                  (driftC10_lit_nilws (by decide) (by decide)
                    (driftC10_und_nilws (Or.inl rfl)
                      (driftC10_und_nilws (Or.inr (Or.inl rfl)) DriftC10.nil))))))))))

/-- C4 counterexample: `restore(escape(text), {})` does not equal
`escape(text)` at `text = "&"` — `restore` escapes its input again, so the
ampersand is double-escaped. -/
theorem claim_C4_counterexample :
    restorePlaceholders (escapeHtml "&") [] ≠ escapeHtml "&" := by decide

/-- C4 (amended): with an empty placeholder map, `restore(text, {})`
equals `escape(text)` — the input is escaped exactly once, so
`restore(escape(text), {}) = escape(text)` only for texts without
HTML-special characters. -/
theorem claim_C4_restore_empty_map (text : String) :
    restorePlaceholders text [] = escapeHtml text := by
  by_cases h : text = ""
  · subst h
    rfl
  · rw [restorePlaceholders, if_neg h]
    rfl

/-! ## Claim C9 -/

/-- C9: extraction replaces embedded math and code nodes by sequential
space-padded placeholder tokens and records their outer markup: on the
spec's scenario paragraph `"Hello <b>world</b>"` containing
`<code>x=1</code>`, the extracted text is exactly
`"Hello world __CODE_0__"` with map `{"__CODE_0__": "<code>x=1</code>"}`;
and on a paragraph with a math node followed by a code node the counter
runs sequentially across both kinds (`__MATH_0__`, then `__CODE_1__`). -/
theorem claim_C9_extract_scenario :
    getTranslatableText (DomNode.elem "p" [] [DomNode.text "Hello ",
        DomNode.elem "b" [] [DomNode.text "world"], DomNode.text " ",
        DomNode.elem "code" [] [DomNode.text "x=1"]])
      = ("Hello world __CODE_0__", [("__CODE_0__", "<code>x=1</code>")]) ∧
    getTranslatableText (DomNode.elem "p" [] [
        DomNode.elem "span" [("class", "math")] [DomNode.text "E=mc^2"],
        DomNode.text " and ",
        DomNode.elem "code" [] [DomNode.text "x=1"]])
      = ("__MATH_0__ and __CODE_1__",
         [("__MATH_0__", "<span class=\"math\">E=mc^2</span>"),
          ("__CODE_1__", "<code>x=1</code>")]) := by
  constructor
  · decide
  · decide

/-! ## Claims C6 and C5 -/

/-- C6 counterexample: with every attempt failing, the client waits only
500 then 1000 ms — after the third failure it raises immediately, so the
claimed delay list `[500, 1000, 2000]` never occurs. -/
theorem claim_C6_counterexample :
    (translateBatchM 1 (fun _ => Except.error "HTTP 429")).2.1 = [500, 1000] ∧
    (translateBatchM 1 (fun _ => Except.error "HTTP 429")).2.1 ≠ [500, 1000, 2000] ∧
    (translateBatchM 1 (fun _ => Except.error "HTTP 429")).1 = Except.error "HTTP 429" ∧
    (translateBatchM 1 (fun _ => Except.error "HTTP 429")).2.2 = 3 :=
  ⟨rfl, by decide, rfl, rfl⟩

/-- C6 (amended): for one chunk the client makes exactly 3 attempts when
all fail, waits `2^k * 500` ms only after the first and second failures
(500 then 1000 ms; it never waits 2000 ms because the third failure
rethrows immediately), and raises the third attempt's error. -/
theorem claim_C6_retry_schedule (numTexts : Nat) (out : Nat → Except String ApiData)
    (e₀ e₁ e₂ : String)
    (h0 : attemptStep numTexts (out 0) = Except.error e₀)
    (h1 : attemptStep numTexts (out 1) = Except.error e₁)
    (h2 : attemptStep numTexts (out 2) = Except.error e₂) :
    translateBatchM numTexts out = (Except.error e₂, [500, 1000], 3) := by
  simp [translateBatchM, maxRetries, retryFrom, h0, h1, h2]

/-- Witness for C6 at a concrete always-failing backend. -/
theorem claim_C6_retry_schedule_witness :
    translateBatchM 4 (fun _ => Except.error "HTTP 500")
      = (Except.error "HTTP 500", [500, 1000], 3) :=
  claim_C6_retry_schedule 4 (fun _ => Except.error "HTTP 500")
    "HTTP 500" "HTTP 500" "HTTP 500" rfl rfl rfl

/-- C5: if the fetch for the uncached texts fails, the whole
`translateTexts` call fails with that same error — the results already
resolved from cache are not returned (the result is the error, not a
partial list) and the cache is left unwritten. -/
theorem claim_C5_fail_closed (hash : String → String) (cache : String → Option String)
    (texts : List String) (out : Nat → Nat → Except String ApiData)
    (p : Nat × String) (unc : List (Nat × String)) (e : String) (k : Nat)
    (hscan : (cacheScan hash cache texts 0).2 = p :: unc)
    (hfetch : fetchTranslationsFromApi ((p :: unc).map Prod.snd) out = (Except.error e, k)) :
    translateTexts hash cache texts out = (Except.error e, cache, k) := by
  rw [List.map_cons] at hfetch
  simp [translateTexts, hscan, hfetch]

/-- Witness for C5: one cached and one uncached text with a failing
backend — the call returns the error, not the cached result. -/
theorem claim_C5_fail_closed_witness :
    translateTexts (fun s => s)
        (fun h => if h = "t1" then some "v1" else none) ["t1", "t2"]
        (fun _ _ => Except.error "boom")
      = (Except.error "boom", (fun h => if h = "t1" then some "v1" else none), 3) :=
  claim_C5_fail_closed (fun s => s)
    (fun h => if h = "t1" then some "v1" else none) ["t1", "t2"]
    (fun _ _ => Except.error "boom") (1, "t2") [] "boom" 3 rfl rfl

/-! ## Claim C3 -/

/-- C3 counterexample: when the backend's translation is the empty
string, the first call caches it (the hash is present in the namespace)
but the truthiness probe `if (cache[hash])` treats it as a miss, so the
second call performs a network call too — two fetch attempts in total,
not one. -/
theorem claim_C3_counterexample :
    (translateTexts (fun s => s) (fun _ => none) ["a"]
        (fun _ _ => Except.ok (ApiData.arr [ApiItem.str ""]))).2.2 = 1 ∧
    ((translateTexts (fun s => s) (fun _ => none) ["a"]
        (fun _ _ => Except.ok (ApiData.arr [ApiItem.str ""]))).2.1 "a") = some "" ∧
    (translateTexts (fun s => s)
        (translateTexts (fun s => s) (fun _ => none) ["a"]
          (fun _ _ => Except.ok (ApiData.arr [ApiItem.str ""]))).2.1
        ["a"] (fun _ _ => Except.ok (ApiData.arr [ApiItem.str ""]))).2.2 = 1 :=
  ⟨rfl, rfl, rfl⟩

/-- C3 (amended): for a fixed language pair, translating the same text
twice makes exactly one network call total and returns identical output,
provided the fetched translation is a non-empty string (a falsy cached
value is treated as a miss by `if (cache[hash])` and refetched). -/
theorem claim_C3_cache_single_fetch (hash : String → String) (cache : String → Option String)
    (t : String) (out outB : Nat → Nat → Except String ApiData)
    (data : ApiData) (r : String)
    (hmiss : cache (hash t) = none)
    (hout : out 0 0 = Except.ok data)
    (hnorm : normalizeResponse 1 data = some [some r])
    (hr : ¬r = "") :
    translateTexts hash cache [t] out
      = (Except.ok [some r], cacheUnion [(hash t, r)] cache, 1) ∧
    translateTexts hash (cacheUnion [(hash t, r)] cache) [t] outB
      = (Except.ok [some r], cacheUnion [(hash t, r)] cache, 0) := by
  constructor
  · simp [translateTexts, cacheScan, cacheProbe, hmiss, fetchTranslationsFromApi,
      fetchGoFuel, chunkSize, translateBatchM, maxRetries, retryFrom, attemptStep,
      hout, hnorm, applyMerge, newCacheEntries]
  · simp [translateTexts, cacheScan, cacheProbe, cacheUnion, List.lookup, hr]

/-- Witness for C3 at a concrete text and backend. -/
theorem claim_C3_cache_single_fetch_witness :
    translateTexts (fun s => s) (fun _ => none) ["hello"]
        (fun _ _ => Except.ok (ApiData.arr [ApiItem.str "konnichiwa"]))
      = (Except.ok [some "konnichiwa"],
         cacheUnion [("hello", "konnichiwa")] (fun _ => none), 1) ∧
    translateTexts (fun s => s) (cacheUnion [("hello", "konnichiwa")] (fun _ => none)) ["hello"]
        (fun _ _ => Except.error "offline")
      = (Except.ok [some "konnichiwa"],
         cacheUnion [("hello", "konnichiwa")] (fun _ => none), 0) :=
  claim_C3_cache_single_fetch (fun s => s) (fun _ => none) "hello"
    (fun _ _ => Except.ok (ApiData.arr [ApiItem.str "konnichiwa"]))
    (fun _ _ => Except.error "offline")
    (ApiData.arr [ApiItem.str "konnichiwa"]) "konnichiwa" rfl rfl rfl (by decide)

/-! ## Claim C2: the positional contract -/

theorem cacheScan_shift (hash : String → String) (cache : String → Option String) :
    ∀ (ts : List String) (i : Nat),
      cacheScan hash cache ts (i + 1)
        = ((cacheScan hash cache ts i).1,
           (cacheScan hash cache ts i).2.map fun p => (p.1 + 1, p.2)) := by
  intro ts
  induction ts with
  | nil => intro i; rfl
  | cons t ts ih =>
    intro i
    simp only [cacheScan, ih (i + 1)]
    cases cacheProbe hash cache t <;> simp

theorem applyMerge_shift :
    ∀ (unc : List (Nat × String)) (api : List (Option String))
      (x : Option String) (res : List (Option String)),
      applyMerge (unc.map fun p => (p.1 + 1, p.2)) api (x :: res)
        = x :: applyMerge unc api res := by
  intro unc
  induction unc with
  | nil => intro api x res; rfl
  | cons p unc ih =>
    intro api x res
    simp only [List.map_cons, applyMerge, List.set_cons_succ]
    exact ih api.tail x (res.set p.1 api.head?.join)

theorem merge_spec (hash : String → String) (cache : String → Option String) :
    ∀ (ts : List String) (api : List (Option String)),
      applyMerge (cacheScan hash cache ts 0).2 api (cacheScan hash cache ts 0).1
        = specPositional hash cache api ts := by
  intro ts
  induction ts with
  | nil => intro api; rfl
  | cons t ts ih =>
    intro api
    simp only [cacheScan, cacheScan_shift hash cache ts 0]
    cases hp : cacheProbe hash cache t with
    | some v =>
      simp only [specPositional, hp, applyMerge_shift]
      rw [ih api]
    | none =>
      simp only [specPositional, hp, applyMerge, List.set_cons_zero, applyMerge_shift]
      rw [ih api.tail]

/-- C2: the translation client is a strict positional contract — (i) the
backend response, whether a flat list of strings or a list of
single-element lists, is normalized to exactly one translated string per
input in input order, and (ii) whether an input is served from cache or
fetched, `translateTexts` places its result back at the input's original
index: its output equals the order-preserving positional merge
`specPositional` (cache value where cached, otherwise the next fetched
result in order) — the client never reorders results. -/
theorem claim_C2_positional_contract :
    (∀ ss : List String,
       normalizeResponse ss.length (ApiData.arr (ss.map ApiItem.str)) = some (ss.map some) ∧
       normalizeResponse ss.length (ApiData.arr (ss.map fun s => ApiItem.arr [s]))
         = some (ss.map some)) ∧
    (∀ (hash : String → String) (cache : String → Option String) (texts : List String)
       (out : Nat → Nat → Except String ApiData) (api : List (Option String)) (k : Nat),
       fetchTranslationsFromApi ((cacheScan hash cache texts 0).2.map Prod.snd) out
           = (Except.ok api, k) →
       (translateTexts hash cache texts out).1
           = Except.ok (specPositional hash cache api texts)) := by
  constructor
  · intro ss
    match ss with
    | [] => exact ⟨rfl, rfl⟩
    | [s] => exact ⟨rfl, rfl⟩
    | s₁ :: s₂ :: ss' =>
      constructor
      · rw [normalizeResponse, if_neg (by simp)]
        simp [normalizeItem]
      · rw [normalizeResponse, if_neg (by simp)]
        simp [normalizeItem]
  · intro hash cache texts out api k hfetch
    rw [← merge_spec hash cache texts api]
    cases hscan : (cacheScan hash cache texts 0).2 with
    | nil =>
      simp only [translateTexts, hscan]
      rfl
    | cons p unc =>
      rw [hscan, List.map_cons] at hfetch
      simp [translateTexts, hscan, hfetch]

/-- Witness for C2: three texts with the middle one cached — the fetched
results land at positions 0 and 2, the cached value at position 1. -/
theorem claim_C2_positional_contract_witness :
    (translateTexts (fun s => s)
        (fun h => if h = "B" then some "tB" else none) ["A", "B", "C"]
        (fun _ _ => Except.ok (ApiData.arr [ApiItem.str "tA", ApiItem.str "tC"]))).1
      = Except.ok (specPositional (fun s => s)
          (fun h => if h = "B" then some "tB" else none)
          [some "tA", some "tC"] ["A", "B", "C"]) :=
  claim_C2_positional_contract.2 (fun s => s)
    (fun h => if h = "B" then some "tB" else none) ["A", "B", "C"]
    (fun _ _ => Except.ok (ApiData.arr [ApiItem.str "tA", ApiItem.str "tC"]))
    [some "tA", some "tC"] 1 rfl

/-! ## Claims C7 and C8: session state -/

/-- C7 counterexample: a page pass over one fragment in which the only
batch fails inserts no translation markup, yet `isTranslated` ends up
true — the flag is set unconditionally after the batch loop, violating
the claimed "true iff some fragment carries translation markup". -/
theorem claim_C7_counterexample :
    (translatePageM (SessionState.mk false false) [FragState.mk none false false]
        (fun _ => BatchResp.err "network error")).1.isTranslated = true ∧
    ((translatePageM (SessionState.mk false false) [FragState.mk none false false]
        (fun _ => BatchResp.err "network error")).2.1.all
      fun f => f.hasTranslation = false) = true := by
  decide

/-- C7 (amended): `isTranslated` is true after any page pass that
selected at least one fragment — even one in which every batch failed and
no translation markup was inserted — and it is false after
`removeAllTranslations`, which also removes every translation sibling,
loading indicator and marker. -/
theorem claim_C7_translated_flag (s : SessionState) (targets : List FragState)
    (out : Nat → BatchResp)
    (hidle : s.isTranslating = false) (hne : targets ≠ []) :
    (translatePageM s targets out).1.isTranslated = true ∧
    ∀ s' : SessionState, ∀ frags : List FragState,
      (removeAllTranslationsM s' frags).1.isTranslated = false ∧
      ∀ f ∈ (removeAllTranslationsM s' frags).2,
        f.hasTranslation = false ∧ f.hasLoading = false ∧ f.marker = none := by
  constructor
  · cases targets with
    | nil => exact absurd rfl hne
    | cons f fs => simp [translatePageM, hidle]
  · intro s' frags
    constructor
    · rfl
    · intro f hf
      simp [removeAllTranslationsM] at hf
      simp [hf]

/-- Witness for C7 at a concrete failing pass. -/
theorem claim_C7_translated_flag_witness :
    (translatePageM (SessionState.mk false false) [FragState.mk none false false]
        (fun _ => BatchResp.err "x")).1.isTranslated = true ∧
    ∀ s' : SessionState, ∀ frags : List FragState,
      (removeAllTranslationsM s' frags).1.isTranslated = false ∧
      ∀ f ∈ (removeAllTranslationsM s' frags).2,
        f.hasTranslation = false ∧ f.hasLoading = false ∧ f.marker = none :=
  claim_C7_translated_flag (SessionState.mk false false) [FragState.mk none false false]
    (fun _ => BatchResp.err "x") rfl (by decide)

/-- C8: a page pass whose fragment selection yields zero eligible
fragments goes Idle → Translating → Idle and never reaches Translated:
whatever the backend would answer, the state trace is exactly
`[⟨false,false⟩, ⟨false,true⟩, ⟨false,false⟩]` — `isTranslating` is reset
and `isTranslated` is never set. -/
theorem claim_C8_zero_fragments (out : Nat → BatchResp) :
    translatePageM (SessionState.mk false false) [] out
      = (SessionState.mk false false, [],
         [SessionState.mk false false, SessionState.mk false true,
          SessionState.mk false false]) := by
  rfl
